import Mathlib

set_option autoImplicit false

namespace ChunkedSpleeter

/-!
Shallow embedding of `chunked_spleeter.py`: a wrapper that splits an audio
file into fixed-size chunks, runs an external separation tool per chunk,
and concatenates the per-chunk stems.  Command-line tokens (Python `str`)
are modelled as lists of characters; filesystem facts (which files and
directories exist) as explicit record state; external processes as oracles
giving their exit codes and produced files.
-/

/-- A command-line token (a Python string) as a list of characters. -/
abbrev Tok := List Char

/-- Python `str.startswith`: `tokStartsWith t p` is true when `p` is an
initial segment of `t`. -/
def tokStartsWith : Tok → Tok → Bool
  | _, [] => true
  | [], _ :: _ => false
  | c :: cs, d :: ds => c == d && tokStartsWith cs ds

/-- The literal token `"--venv"`. -/
def venvTok : Tok := ['-', '-', 'v', 'e', 'n', 'v']

/-- The literal token `"-V"`. -/
def shortVTok : Tok := ['-', 'V']

/-- The literal string `"--venv="` used by the `token.startswith("--venv=")`
test. -/
def venvEqTok : Tok := ['-', '-', 'v', 'e', 'n', 'v', '=']

/-- The literal string `"-"` used by the `startswith("-")` look-ahead test. -/
def dashTok : Tok := ['-']

/-- The test `token in ("--venv", "-V")` from `maybe_reexec_in_venv`. -/
def isVenvFlagTok (t : Tok) : Bool := t == venvTok || t == shortVTok

/-- The argv-filtering loop of `maybe_reexec_in_venv` (source lines 56-70):
walk the tokens; a `--venv`/`-V` token is dropped and additionally consumes
the following token when that token does not start with `-`; a token of the
form `--venv=...` is dropped; every other token is kept. -/
def filterVenv : List Tok → List Tok
  | [] => []
  | t :: rest =>
    if isVenvFlagTok t then
      match rest with
      | [] => []
      | x :: rest2 =>
        if tokStartsWith x dashTok then filterVenv (x :: rest2) else filterVenv rest2
    else if tokStartsWith t venvEqTok then filterVenv rest
    else t :: filterVenv rest

/-- Whether the first token of a suffix starts with `-` (the only look-ahead
information the filter ever extracts across a list boundary). -/
def headDash (s : List Tok) : Option Bool :=
  s.head?.map (fun t => tokStartsWith t dashTok)

/-- Which interpreter files exist on disk, as consulted by
`maybe_reexec_in_venv`. -/
structure VenvSys where
  venvDirExists : Bool
  binPythonExists : Bool
  scriptsPythonExists : Bool
deriving DecidableEq

/-- The process environment: the value of the `VIRTUAL_ENV` marker variable
(`none` when unset). -/
structure Env where
  virtualEnv : Option Tok
deriving DecidableEq

/-- The outcome of `maybe_reexec_in_venv`: a fatal `sys.exit`, a plain
return (already inside the venv), or `os.execv` replacing the process image
with the given program, argv, and (unchanged) environment. -/
inductive ReexecResult where
  | exitErr (msg : String)
  | returned
  | exec (prog : Tok) (argv : List Tok) (env : Env)
deriving DecidableEq

/-- The interpreter path chosen at source lines 44-48: `bin/python` when it
exists, otherwise `Scripts/python.exe`. -/
def venvPython (sys : VenvSys) (venv_dir : Tok) : Tok :=
  if sys.binPythonExists then venv_dir ++ "/bin/python".toList
  else venv_dir ++ "/Scripts/python.exe".toList

/-- Whether the chosen interpreter path exists (the check at line 49). -/
def venvPythonExists (sys : VenvSys) : Bool :=
  if sys.binPythonExists then true else sys.scriptsPythonExists

/-- `maybe_reexec_in_venv` (source lines 38-74): exit if the venv directory
is missing; exit if no interpreter is found under it; return if the
`VIRTUAL_ENV` marker already equals the target directory; otherwise replace
the process image with the venv interpreter running the filtered argv.  The
environment is passed through to `os.execv` unchanged. -/
def maybe_reexec_in_venv (sys : VenvSys) (env : Env) (venv_dir : Tok)
    (argv : List Tok) : ReexecResult :=
  if sys.venvDirExists = false then
    .exitErr "[venv] directory does not exist"
  else if venvPythonExists sys = false then
    .exitErr "[venv] could not find interpreter"
  else if env.virtualEnv = some venv_dir then
    .returned
  else
    .exec (venvPython sys venv_dir) (venvPython sys venv_dir :: filterVenv argv) env

/-- Number of process-image replacements across `n` successive invocations
of the selector: a `returned` outcome leaves the process (and its
environment) unchanged and the next invocation proceeds; an `exec` replaces
the image once; a fatal exit ends the process. -/
def invokeCount (sys : VenvSys) (venv_dir : Tok) (argv : List Tok) :
    ℕ → Env → ℕ
  | 0, _ => 0
  | n + 1, env =>
    match maybe_reexec_in_venv sys env venv_dir argv with
    | .returned => invokeCount sys venv_dir argv n env
    | .exec _ _ _ => 1
    | .exitErr _ => 0

/-- `n_chunks = math.ceil(total_sec / args.chunk)` (source line 187); Python
`range` treats a non-positive count as empty, hence `Int.toNat`. -/
def n_chunks (total_sec : ℚ) (chunk : ℕ) : ℕ :=
  (Int.ceil (total_sec / (chunk : ℚ))).toNat

/-- The offsets handed to the separation tool: the loop at lines 195-196
computes `offset = idx * args.chunk` for `idx in range(n_chunks)`. -/
def chunkOffsets (total_sec : ℚ) (chunk : ℕ) : List ℕ :=
  (List.range (n_chunks total_sec chunk)).map (fun idx => idx * chunk)

/-- Path `tmp_root/chunk{idx}` (source line 197). -/
def chunkDirPath (tmpRoot : String) (idx : ℕ) : String :=
  tmpRoot ++ "/chunk" ++ toString idx

/-- Path `chunk_dir/{input stem}` (source line 198). -/
def stemDirPath (tmpRoot inStem : String) (idx : ℕ) : String :=
  chunkDirPath tmpRoot idx ++ "/" ++ inStem

/-- Path `stem_dir/vocals.wav` (source line 212). -/
def vocalFilePath (tmpRoot inStem : String) (idx : ℕ) : String :=
  stemDirPath tmpRoot inStem idx ++ "/vocals.wav"

/-- Path `stem_dir/accompaniment.wav` (source line 213). -/
def accompFilePath (tmpRoot inStem : String) (idx : ℕ) : String :=
  stemDirPath tmpRoot inStem idx ++ "/accompaniment.wav"

/-- What one external separation invocation produced: its exit code and
whether the two expected stem files exist afterwards. -/
structure ChunkOutcome where
  exitCode : ℕ
  vocalExists : Bool
  accompExists : Bool
deriving DecidableEq

/-- Errors that terminate the run: a `CalledProcessError` raised by `run`
(source line 85) or a fatal `sys.exit` (source lines 184 and 215). -/
inductive RunError where
  | calledProcess (code : ℕ)
  | fatalExit (msg : String)
deriving DecidableEq

/-- The per-chunk body of the separation loop (source lines 201-217): invoke
the tool (`run` raises on non-zero exit), `sys.exit` when `vocals.wav` is
missing, otherwise append the vocal path and — unchecked — the
accompaniment path. -/
def sepChunk (tmpRoot inStem : String) (res : ℕ → ChunkOutcome) (idx : ℕ)
    (acc : List String × List String) :
    Except RunError (List String × List String) :=
  let o := res idx
  if o.exitCode ≠ 0 then .error (.calledProcess o.exitCode)
  else if o.vocalExists = false then
    .error (.fatalExit ("Missing " ++ vocalFilePath tmpRoot inStem idx))
  else
    .ok (acc.1 ++ [vocalFilePath tmpRoot inStem idx],
      acc.2 ++ [accompFilePath tmpRoot inStem idx])

/-- The separation loop over a list of chunk indices, threading the two
accumulated stem-path lists; the first failing chunk aborts the loop. -/
def sepLoop (tmpRoot inStem : String) (res : ℕ → ChunkOutcome) :
    List ℕ → List String × List String → Except RunError (List String × List String)
  | [], acc => .ok acc
  | idx :: rest, acc =>
    match sepChunk tmpRoot inStem res idx acc with
    | .error e => .error e
    | .ok acc2 => sepLoop tmpRoot inStem res rest acc2

/-- `for idx in range(n_chunks)` (source line 195) starting from empty
accumulators. -/
def sepRun (tmpRoot inStem : String) (res : ℕ → ChunkOutcome) (n : ℕ) :
    Except RunError (List String × List String) :=
  sepLoop tmpRoot inStem res (List.range n) ([], [])

/-- Whether chunk `idx`'s invocation lets the loop continue: exit code zero
and the vocal stem present. -/
def chunkOk (o : ChunkOutcome) : Bool := o.exitCode == 0 && o.vocalExists

/-- The chunk indices for which a separation invocation is issued, in the
order in which the invocations happen. -/
def sepInvoked (res : ℕ → ChunkOutcome) : List ℕ → List ℕ
  | [] => []
  | idx :: rest => idx :: (if chunkOk (res idx) then sepInvoked res rest else [])

/-- Invocation trace of the whole loop over `range n`. -/
def sepInvocations (res : ℕ → ChunkOutcome) (n : ℕ) : List ℕ :=
  sepInvoked res (List.range n)

/-- `true` exactly on `Except.ok` results. -/
def exceptOk {ε α : Type} : Except ε α → Bool
  | .ok _ => true
  | .error _ => false

/-- Two chunk outcomes that agree on everything the code reads (exit code
and vocal-stem existence) but may differ on accompaniment-stem existence. -/
def eqExceptAccomp (o₁ o₂ : ChunkOutcome) : Prop :=
  o₁.exitCode = o₂.exitCode ∧ o₁.vocalExists = o₂.vocalExists

/-- One manifest line per stem file, `file '{path}'` (source lines 111-113),
in the order of the given list. -/
def manifestLines (wavList : List String) : List String :=
  wavList.map (fun w => "file '" ++ w ++ "'")

/-- Filesystem state seen by `ffmpeg_concat`: the manifest file's contents
when the file exists, `none` when it does not. -/
structure ConcatFS where
  manifest : Option (List String)
deriving DecidableEq

/-- `run`'s contract (source lines 80-86): ok on exit code zero, raise
`CalledProcessError` otherwise. -/
def runExternal (exitCode : ℕ) : Except RunError Unit :=
  if exitCode = 0 then .ok () else .error (.calledProcess exitCode)

/-- `ffmpeg_concat` (source lines 108-132): write the manifest, run the
external tool inside `try`, and in the `finally` clause unlink the manifest
whatever the outcome; only then does the result (value or exception)
propagate. -/
def ffmpeg_concat (ffmpegExit : ℕ) (wavList : List String) (fs : ConcatFS) :
    Except RunError Unit × ConcatFS :=
  let fs1 : ConcatFS := { fs with manifest := some (manifestLines wavList) }
  let result := runExternal ffmpegExit
  let fs2 : ConcatFS := { fs1 with manifest := none }
  (result, fs2)

/-- Whether the `tempfile.TemporaryDirectory` root exists. -/
structure TempState where
  tmpRootExists : Bool
deriving DecidableEq

/-- Entering the `with tempfile.TemporaryDirectory(...)` block (source line
190) creates the temp root. -/
def temporaryDirectoryEnter (s : TempState) : TempState :=
  { s with tmpRootExists := true }

/-- Leaving the `with` block: `TemporaryDirectory.__exit__` removes the
directory tree unconditionally (Python stdlib semantics; the code passes no
option that would disable this cleanup). -/
def temporaryDirectoryExit (s : TempState) : TempState :=
  { s with tmpRootExists := false }

/-- The temp-directory lifecycle of a successful `main` run (source lines
190-229): the `with` block is entered, its body completes, lines 227-228
print a message when `keep_temp` is set, and the block is exited.  Returns
the final state and the messages printed by the keep-temp branch. -/
def mainTempPhase (keepTemp : Bool) (s : TempState) : TempState × List String :=
  let s1 := temporaryDirectoryEnter s
  let msgs := if keepTemp then ["[temp] chunks kept under tmp_root"] else []
  (temporaryDirectoryExit s1, msgs)

/-- Filesystem state consulted by the start of `main`. -/
structure MainFS where
  outDirExists : Bool
  inputExists : Bool
deriving DecidableEq

/-- Outcome of the start of `main`. -/
inductive EarlyResult where
  | fatalMissingInput
  | proceed
deriving DecidableEq

/-- The start of `main` after argument parsing (source lines 179-184):
resolve the paths, create the output directory with
`mkdir(parents=True, exist_ok=True)`, then check that the input file exists
and `sys.exit` fatally if it does not. -/
def mainEarly (fs : MainFS) : EarlyResult × MainFS :=
  let fs1 : MainFS := { fs with outDirExists := true }
  if fs1.inputExists = false then (.fatalMissingInput, fs1) else (.proceed, fs1)

/-- A sample separation oracle: every chunk exits zero and produces the
given stem files. -/
def constOutcome (e : ℕ) (v a : Bool) : ℕ → ChunkOutcome := fun _ => ⟨e, v, a⟩

/-- A sample separation oracle whose chunk `i` exits with code `i`: chunk 0
succeeds, chunk 1 is the first failure. -/
def idxOutcome : ℕ → ChunkOutcome := fun i => ⟨i, true, true⟩

/-! ## Lemmas about the argv filter -/

theorem tokStartsWith_append (p t : Tok) : tokStartsWith (p ++ t) p = true := by
  induction p with
  | nil => simp [tokStartsWith]
  | cons c cs ih => simp [tokStartsWith, ih]

theorem tokStartsWith_dash_of_venvEq (t : Tok) (h : tokStartsWith t venvEqTok = true) :
    tokStartsWith t dashTok = true := by
  cases t with
  | nil => simp [tokStartsWith, venvEqTok] at h
  | cons c cs =>
    simp [tokStartsWith, venvEqTok] at h
    simp [tokStartsWith, dashTok, h.1]

theorem tokStartsWith_dash_of_flag (t : Tok) (h : isVenvFlagTok t = true) :
    tokStartsWith t dashTok = true := by
  rcases Bool.or_eq_true_iff.mp h with h' | h' <;>
    rw [beq_iff_eq] at h' <;> subst h' <;> decide

/-- Tokens that are neither a `--venv`/`-V` flag nor of the form `--venv=...`
pass through the filter unchanged. -/
theorem filterVenv_cons_keep (t : Tok) (rest : List Tok)
    (h1 : isVenvFlagTok t = false) (h2 : tokStartsWith t venvEqTok = false) :
    filterVenv (t :: rest) = t :: filterVenv rest := by
  cases rest with
  | nil => simp [filterVenv.eq_2, filterVenv.eq_1, h1, h2]
  | cons a r => simp [filterVenv.eq_3, h1, h2]

/-- Tokens that do not start with `-` pass through the filter unchanged. -/
theorem filterVenv_cons_plain (t : Tok) (rest : List Tok)
    (h : tokStartsWith t dashTok = false) :
    filterVenv (t :: rest) = t :: filterVenv rest := by
  have h1 : isVenvFlagTok t = false := by
    cases hf : isVenvFlagTok t
    · rfl
    · rw [tokStartsWith_dash_of_flag t hf] at h; cases h
  have h2 : tokStartsWith t venvEqTok = false := by
    cases he : tokStartsWith t venvEqTok
    · rfl
    · rw [tokStartsWith_dash_of_venvEq t he] at h; cases h
  exact filterVenv_cons_keep t rest h1 h2

theorem filterVenv_flag_nil (t : Tok) (h : isVenvFlagTok t = true) :
    filterVenv [t] = [] := by
  simp [filterVenv.eq_2, h]

theorem filterVenv_flag_cons (t x : Tok) (rest : List Tok) (h : isVenvFlagTok t = true) :
    filterVenv (t :: x :: rest) =
      if tokStartsWith x dashTok then filterVenv (x :: rest) else filterVenv rest := by
  simp [filterVenv.eq_3, h]

theorem filterVenv_cons_venvEq (t : Tok) (rest : List Tok)
    (h1 : isVenvFlagTok t = false) (h2 : tokStartsWith t venvEqTok = true) :
    filterVenv (t :: rest) = filterVenv rest := by
  cases rest with
  | nil => simp [filterVenv.eq_2, filterVenv.eq_1, h1, h2]
  | cons a r => simp [filterVenv.eq_3, h1, h2]

/-- The filter's action on `pre ++ s` depends on `s` only through the
filtered suffix and whether the suffix's first token starts with `-`. -/
theorem filterVenv_append_congr (pre s1 s2 : List Tok)
    (hf : filterVenv s1 = filterVenv s2) (hh : headDash s1 = headDash s2) :
    filterVenv (pre ++ s1) = filterVenv (pre ++ s2) := by
  suffices H : ∀ n (pre : List Tok), pre.length ≤ n →
      filterVenv (pre ++ s1) = filterVenv (pre ++ s2) from H pre.length pre le_rfl
  intro n
  induction n with
  | zero =>
    intro pre hlen
    have hpre : pre = [] := List.eq_nil_of_length_eq_zero (Nat.le_zero.mp hlen)
    subst hpre; simpa using hf
  | succ n ih =>
    intro pre hlen
    match pre with
    | [] => simpa using hf
    | t :: pre' =>
      by_cases hflag : isVenvFlagTok t = true
      · match pre' with
        | [] =>
          cases s1 with
          | nil =>
            cases s2 with
            | nil => rfl
            | cons x2 r2 => simp [headDash] at hh
          | cons x1 r1 =>
            cases s2 with
            | nil => simp [headDash] at hh
            | cons x2 r2 =>
              have hh' : tokStartsWith x1 dashTok = tokStartsWith x2 dashTok := by
                simpa [headDash] using hh
              simp only [List.singleton_append]
              rw [filterVenv_flag_cons t x1 r1 hflag, filterVenv_flag_cons t x2 r2 hflag]
              by_cases hd1 : tokStartsWith x1 dashTok = true
              · have hd2 : tokStartsWith x2 dashTok = true := by rw [← hh']; exact hd1
                rw [if_pos hd1, if_pos hd2]
                exact hf
              · have hd1' : tokStartsWith x1 dashTok = false := by simpa using hd1
                have hd2' : tokStartsWith x2 dashTok = false := by rw [← hh']; exact hd1'
                rw [if_neg hd1, if_neg (by simp [hd2'])]
                rw [filterVenv_cons_plain x1 r1 hd1', filterVenv_cons_plain x2 r2 hd2'] at hf
                injection hf
        | u :: pre'' =>
          have hlen1 : (u :: pre'').length ≤ n := by
            simpa using Nat.le_of_succ_le_succ hlen
          have hlen2 : pre''.length ≤ n := le_trans (by simp) hlen1
          simp only [List.cons_append]
          rw [filterVenv_flag_cons t u (pre'' ++ s1) hflag,
            filterVenv_flag_cons t u (pre'' ++ s2) hflag]
          by_cases hd : tokStartsWith u dashTok = true
          · rw [if_pos hd, if_pos hd]
            have := ih (u :: pre'') hlen1
            simpa using this
          · rw [if_neg hd, if_neg hd]
            exact ih pre'' hlen2
      · have hflag' : isVenvFlagTok t = false := by simpa using hflag
        have hlen' : pre'.length ≤ n := Nat.le_of_succ_le_succ hlen
        cases he : tokStartsWith t venvEqTok
        · simp only [List.cons_append]
          rw [filterVenv_cons_keep t _ hflag' he, filterVenv_cons_keep t _ hflag' he]
          exact congrArg (t :: ·) (ih pre' hlen')
        · simp only [List.cons_append]
          rw [filterVenv_cons_venvEq t _ hflag' he, filterVenv_cons_venvEq t _ hflag' he]
          exact ih pre' hlen'

theorem venvEq_append_not_flag (x : Tok) : isVenvFlagTok (venvEqTok ++ x) = false := by
  have h1 : venvEqTok ++ x ≠ venvTok := by
    intro h
    have hl := congrArg List.length h
    simp [venvEqTok, venvTok] at hl
  have h2 : venvEqTok ++ x ≠ shortVTok := by
    intro h
    have hl := congrArg List.length h
    simp [venvEqTok, shortVTok] at hl
  simp [isVenvFlagTok, h1, h2]

theorem tokStartsWith_venvEq_append_dash (x : Tok) :
    tokStartsWith (venvEqTok ++ x) dashTok = true := rfl

/-- No token surviving the filter is a `--venv`/`-V` flag or a `--venv=...`
token. -/
theorem filterVenv_no_flags (l : List Tok) :
    ∀ t ∈ filterVenv l, isVenvFlagTok t = false ∧ tokStartsWith t venvEqTok = false := by
  suffices H : ∀ n (l : List Tok), l.length ≤ n →
      ∀ t ∈ filterVenv l, isVenvFlagTok t = false ∧ tokStartsWith t venvEqTok = false from
    H l.length l le_rfl
  intro n
  induction n with
  | zero =>
    intro l hlen
    have hl : l = [] := List.eq_nil_of_length_eq_zero (Nat.le_zero.mp hlen)
    subst hl
    intro t ht
    simp [filterVenv.eq_1] at ht
  | succ n ih =>
    intro l hlen
    match l with
    | [] => intro t ht; simp [filterVenv.eq_1] at ht
    | t₀ :: rest =>
      by_cases hflag : isVenvFlagTok t₀ = true
      · match rest with
        | [] =>
          rw [filterVenv_flag_nil t₀ hflag]
          intro t ht; cases ht
        | x :: rest2 =>
          rw [filterVenv_flag_cons t₀ x rest2 hflag]
          by_cases hd : tokStartsWith x dashTok = true
          · rw [if_pos hd]
            exact ih (x :: rest2) (Nat.le_of_succ_le_succ hlen)
          · rw [if_neg hd]
            exact ih rest2 (Nat.le_of_succ_le (Nat.le_of_succ_le_succ hlen))
      · have hflag' : isVenvFlagTok t₀ = false := by simpa using hflag
        have hlen' : rest.length ≤ n := Nat.le_of_succ_le_succ hlen
        cases he : tokStartsWith t₀ venvEqTok
        · rw [filterVenv_cons_keep t₀ rest hflag' he]
          intro t ht
          rcases List.mem_cons.mp ht with h | h
          · subst h; exact ⟨hflag', he⟩
          · exact ih rest hlen' t h
        · rw [filterVenv_cons_venvEq t₀ rest hflag' he]
          exact ih rest hlen'

/-! ## Claim C4 -/

/-- Claim C4 fails as stated: for the path value `"-p"` (which starts with
`-`), the separate-token form `--venv -p` keeps the value token while the
attached form `--venv=-p` removes everything, so the two filtered argument
lists differ. -/
theorem c4_counterexample :
    ¬ (filterVenv ([] ++ venvTok :: ['-', 'p'] :: []) =
        filterVenv ([] ++ (venvEqTok ++ ['-', 'p']) :: [])) := by decide

/-- Claim C4 (amended): for every argument list and every path value that
does not start with `-`, filtering out the environment-selection flag in
the separate-token form (`--venv /path/x`) and in the attached-value form
(`--venv=/path/x`) yield the same remaining argument list. -/
theorem c4_filter_forms_agree (pre post : List Tok) (x : Tok)
    (hx : tokStartsWith x dashTok = false) :
    filterVenv (pre ++ venvTok :: x :: post) =
      filterVenv (pre ++ (venvEqTok ++ x) :: post) := by
  apply filterVenv_append_congr
  · rw [filterVenv_flag_cons venvTok x post (by decide), if_neg (by simp [hx]),
      filterVenv_cons_venvEq (venvEqTok ++ x) post (venvEq_append_not_flag x)
        (tokStartsWith_append venvEqTok x)]
  · simp only [headDash, List.head?, Option.map_some']
    rw [tokStartsWith_venvEq_append_dash x]
    rfl

theorem c4_filter_forms_agree_witness :
    tokStartsWith ['p'] dashTok = false ∧
    filterVenv ([['x']] ++ venvTok :: ['p'] :: [['y']]) =
      filterVenv ([['x']] ++ (venvEqTok ++ ['p']) :: [['y']]) :=
  ⟨by decide, c4_filter_forms_agree [['x']] [['y']] ['p'] (by decide)⟩

/-! ## Claim C5 -/

/-- Claim C5: when the `VIRTUAL_ENV` marker already equals the target
environment root and the root and its interpreter exist, the selector
returns without relaunching, and any number of invocations under that
condition replaces the process image zero times. -/
theorem c5_relaunch_idempotent (sys : VenvSys) (env : Env) (venv_dir : Tok)
    (argv : List Tok) (n : ℕ)
    (hdir : sys.venvDirExists = true) (hpy : venvPythonExists sys = true)
    (hmark : env.virtualEnv = some venv_dir) :
    maybe_reexec_in_venv sys env venv_dir argv = ReexecResult.returned ∧
    invokeCount sys venv_dir argv n env = 0 := by
  have h1 : maybe_reexec_in_venv sys env venv_dir argv = ReexecResult.returned := by
    simp [maybe_reexec_in_venv, hdir, hpy, hmark]
  refine ⟨h1, ?_⟩
  induction n with
  | zero => rfl
  | succ n ih => rw [invokeCount, h1]; exact ih

theorem c5_relaunch_idempotent_witness :
    (⟨true, true, true⟩ : VenvSys).venvDirExists = true ∧
    venvPythonExists ⟨true, true, true⟩ = true ∧
    (⟨some ['/', 'v']⟩ : Env).virtualEnv = some ['/', 'v'] ∧
    maybe_reexec_in_venv ⟨true, true, true⟩ ⟨some ['/', 'v']⟩ ['/', 'v']
        [venvTok, ['/', 'v']] = ReexecResult.returned ∧
    invokeCount ⟨true, true, true⟩ ['/', 'v'] [venvTok, ['/', 'v']] 5
        ⟨some ['/', 'v']⟩ = 0 := by
  refine ⟨rfl, rfl, rfl, ?_⟩
  exact c5_relaunch_idempotent ⟨true, true, true⟩ ⟨some ['/', 'v']⟩ ['/', 'v']
    [venvTok, ['/', 'v']] 5 rfl rfl rfl

/-! ## Claim C10 -/

/-- Claim C10: when a relaunch happens, the process image is replaced with
the environment passed through unchanged — the marker is never set — and
the rebuilt argument list contains no environment-selection flag in either
form, so a relaunched process cannot trigger the selector again. -/
theorem c10_exec_env_unchanged (sys : VenvSys) (env : Env) (venv_dir : Tok)
    (argv : List Tok)
    (hdir : sys.venvDirExists = true) (hpy : venvPythonExists sys = true)
    (hmark : ¬ env.virtualEnv = some venv_dir) :
    maybe_reexec_in_venv sys env venv_dir argv =
      ReexecResult.exec (venvPython sys venv_dir)
        (venvPython sys venv_dir :: filterVenv argv) env ∧
    ∀ t ∈ filterVenv argv, isVenvFlagTok t = false ∧ tokStartsWith t venvEqTok = false := by
  constructor
  · simp [maybe_reexec_in_venv, hdir, hpy, hmark]
  · exact filterVenv_no_flags argv

theorem c10_exec_env_unchanged_witness :
    (⟨true, true, true⟩ : VenvSys).venvDirExists = true ∧
    venvPythonExists ⟨true, true, true⟩ = true ∧
    ¬ (⟨none⟩ : Env).virtualEnv = some ['/', 'v'] ∧
    (maybe_reexec_in_venv ⟨true, true, true⟩ ⟨none⟩ ['/', 'v']
        [['s'], venvTok, ['/', 'v'], ['a']] =
      ReexecResult.exec (venvPython ⟨true, true, true⟩ ['/', 'v'])
        (venvPython ⟨true, true, true⟩ ['/', 'v'] ::
          filterVenv [['s'], venvTok, ['/', 'v'], ['a']]) ⟨none⟩ ∧
    ∀ t ∈ filterVenv [['s'], venvTok, ['/', 'v'], ['a']],
      isVenvFlagTok t = false ∧ tokStartsWith t venvEqTok = false) := by
  refine ⟨rfl, rfl, by decide, ?_⟩
  exact c10_exec_env_unchanged ⟨true, true, true⟩ ⟨none⟩ ['/', 'v']
    [['s'], venvTok, ['/', 'v'], ['a']] rfl rfl (by decide)

/-! ## Claim C2 -/

/-- Claim C2: for every duration `D > 0` and chunk size `C > 0` the planner
produces exactly `⌈D / C⌉` chunk offsets, the `i`-th offset is `i * C`, and
in particular `D = 1234.5`, `C = 600` yield the offsets `[0, 600, 1200]`. -/
theorem c2_chunk_planner (D : ℚ) (C : ℕ) (hD : 0 < D) (hC : 0 < C) :
    ((chunkOffsets D C).length : ℤ) = Int.ceil (D / (C : ℚ)) ∧
    (∀ i, i < (chunkOffsets D C).length → (chunkOffsets D C)[i]? = some (i * C)) ∧
    chunkOffsets (1234.5 : ℚ) 600 = [0, 600, 1200] := by
  refine ⟨?_, ?_, ?_⟩
  · have h0 : (0 : ℚ) ≤ D / (C : ℚ) := le_of_lt (div_pos hD (by exact_mod_cast hC))
    have h1 : 0 ≤ Int.ceil (D / (C : ℚ)) := Int.ceil_nonneg h0
    simp [chunkOffsets, n_chunks, Int.toNat_of_nonneg h1]
  · intro i hi
    have hi' : i < n_chunks D C := by simpa [chunkOffsets] using hi
    simp [chunkOffsets, List.getElem?_map, List.getElem?_range, hi']
  · have h : Int.ceil ((1234.5 : ℚ) / ((600 : ℕ) : ℚ)) = 3 := by
      rw [Int.ceil_eq_iff]; norm_num
    simp only [chunkOffsets, n_chunks, h]
    decide

theorem c2_chunk_planner_witness :
    (0 : ℚ) < 1234.5 ∧ 0 < 600 ∧
    (((chunkOffsets (1234.5 : ℚ) 600).length : ℤ) =
        Int.ceil ((1234.5 : ℚ) / ((600 : ℕ) : ℚ)) ∧
      (∀ i, i < (chunkOffsets (1234.5 : ℚ) 600).length →
        (chunkOffsets (1234.5 : ℚ) 600)[i]? = some (i * 600)) ∧
      chunkOffsets (1234.5 : ℚ) 600 = [0, 600, 1200]) :=
  ⟨by norm_num, by norm_num, c2_chunk_planner 1234.5 600 (by norm_num) (by norm_num)⟩

/-! ## Claim C3 -/

/-- Claim C3: after `ffmpeg_concat` the manifest file no longer exists,
whether the external invocation succeeded or raised, and a non-zero exit
still propagates as a failure (with the manifest already removed). -/
theorem c3_manifest_cleanup (ffmpegExit : ℕ) (wavList : List String) (fs : ConcatFS) :
    (ffmpeg_concat ffmpegExit wavList fs).2.manifest = none ∧
    (ffmpegExit ≠ 0 →
      (ffmpeg_concat ffmpegExit wavList fs).1 =
        Except.error (RunError.calledProcess ffmpegExit)) := by
  constructor
  · rfl
  · intro h
    simp [ffmpeg_concat, runExternal, h]

theorem c3_manifest_cleanup_witness :
    (ffmpeg_concat 1 ["a.wav", "b.wav"] ⟨none⟩).2.manifest = none ∧
    (ffmpeg_concat 1 ["a.wav", "b.wav"] ⟨none⟩).1 =
      Except.error (RunError.calledProcess 1) :=
  ⟨(c3_manifest_cleanup 1 ["a.wav", "b.wav"] ⟨none⟩).1,
    (c3_manifest_cleanup 1 ["a.wav", "b.wav"] ⟨none⟩).2 (by decide)⟩

/-! ## Claim C9 -/

/-- Claim C9: the output directory is created before the input-existence
check, so a run whose input file is missing exits fatally yet leaves the
output directory created. -/
theorem c9_outdir_before_input_check (fs : MainFS) (h : fs.inputExists = false) :
    (mainEarly fs).1 = EarlyResult.fatalMissingInput ∧
    (mainEarly fs).2.outDirExists = true := by
  simp [mainEarly, h]

theorem c9_outdir_before_input_check_witness :
    (⟨false, false⟩ : MainFS).inputExists = false ∧
    ((mainEarly ⟨false, false⟩).1 = EarlyResult.fatalMissingInput ∧
      (mainEarly ⟨false, false⟩).2.outDirExists = true) :=
  ⟨rfl, c9_outdir_before_input_check ⟨false, false⟩ rfl⟩

/-! ## Claim C1 -/

/-- Claim C1 is violated by the code: with `--keep-temp` set and a
successful run, the temp root nevertheless does not exist afterwards —
`TemporaryDirectory.__exit__` deletes it on leaving the `with` block — even
though the code prints that the chunks were kept. -/
theorem c1_keep_temp_still_deleted :
    (mainTempPhase true ⟨false⟩).1.tmpRootExists = false ∧
    (mainTempPhase true ⟨false⟩).2 = ["[temp] chunks kept under tmp_root"] :=
  ⟨rfl, rfl⟩

/-! ## Lemmas about the separation loop -/

theorem chunkOk_iff (o : ChunkOutcome) :
    chunkOk o = true ↔ o.exitCode = 0 ∧ o.vocalExists = true := by
  simp [chunkOk]

theorem sepChunk_ok (tmpRoot inStem : String) (res : ℕ → ChunkOutcome) (idx : ℕ)
    (acc : List String × List String) (h : chunkOk (res idx) = true) :
    sepChunk tmpRoot inStem res idx acc =
      Except.ok (acc.1 ++ [vocalFilePath tmpRoot inStem idx],
        acc.2 ++ [accompFilePath tmpRoot inStem idx]) := by
  obtain ⟨h1, h2⟩ := (chunkOk_iff (res idx)).mp h
  simp [sepChunk, h1, h2]

theorem sepChunk_fail (tmpRoot inStem : String) (res : ℕ → ChunkOutcome) (idx : ℕ)
    (acc : List String × List String) (h : chunkOk (res idx) = false) :
    exceptOk (sepChunk tmpRoot inStem res idx acc) = false := by
  by_cases h1 : (res idx).exitCode = 0
  · have h2 : (res idx).vocalExists = false := by
      cases hv : (res idx).vocalExists
      · rfl
      · rw [(chunkOk_iff (res idx)).mpr ⟨h1, hv⟩] at h; cases h
    simp [sepChunk, h1, h2, exceptOk]
  · simp [sepChunk, h1, exceptOk]

theorem sepLoop_all_ok (tmpRoot inStem : String) (res : ℕ → ChunkOutcome) :
    ∀ (l : List ℕ) (acc : List String × List String),
      (∀ j ∈ l, chunkOk (res j) = true) →
      sepLoop tmpRoot inStem res l acc =
        Except.ok (acc.1 ++ l.map (vocalFilePath tmpRoot inStem),
          acc.2 ++ l.map (accompFilePath tmpRoot inStem)) := by
  intro l
  induction l with
  | nil => intro acc h; simp [sepLoop]
  | cons idx rest ih =>
    intro acc h
    have hidx : chunkOk (res idx) = true := h idx (List.mem_cons_self idx rest)
    have hstep := sepChunk_ok tmpRoot inStem res idx acc hidx
    simp only [sepLoop, hstep]
    rw [ih _ (fun j hj => h j (List.mem_cons_of_mem idx hj))]
    simp [List.append_assoc]

theorem sepInvoked_all_ok (res : ℕ → ChunkOutcome) :
    ∀ l : List ℕ, (∀ j ∈ l, chunkOk (res j) = true) → sepInvoked res l = l := by
  intro l
  induction l with
  | nil => intro _; rfl
  | cons idx rest ih =>
    intro h
    have hidx : chunkOk (res idx) = true := h idx (List.mem_cons_self idx rest)
    have htail := ih (fun j hj => h j (List.mem_cons_of_mem idx hj))
    simp [sepInvoked, hidx, htail]

theorem sepInvoked_fail (res : ℕ → ChunkOutcome) (k : ℕ) (l2 : List ℕ)
    (hk : chunkOk (res k) = false) :
    ∀ l1 : List ℕ, (∀ j ∈ l1, chunkOk (res j) = true) →
      sepInvoked res (l1 ++ k :: l2) = l1 ++ [k] := by
  intro l1
  induction l1 with
  | nil => intro _; simp [sepInvoked, hk]
  | cons idx rest ih =>
    intro h
    have hidx : chunkOk (res idx) = true := h idx (List.mem_cons_self idx rest)
    have htail := ih (fun j hj => h j (List.mem_cons_of_mem idx hj))
    simp [sepInvoked, hidx, htail]

theorem sepLoop_fail (tmpRoot inStem : String) (res : ℕ → ChunkOutcome) (k : ℕ)
    (l2 : List ℕ) (hk : chunkOk (res k) = false) :
    ∀ (l1 : List ℕ) (acc : List String × List String),
      (∀ j ∈ l1, chunkOk (res j) = true) →
      exceptOk (sepLoop tmpRoot inStem res (l1 ++ k :: l2) acc) = false := by
  intro l1
  induction l1 with
  | nil =>
    intro acc _
    have hfail := sepChunk_fail tmpRoot inStem res k acc hk
    rw [List.nil_append]
    cases hc : sepChunk tmpRoot inStem res k acc with
    | error e => simp [sepLoop, hc, exceptOk]
    | ok a => rw [hc] at hfail; simp [exceptOk] at hfail
  | cons idx rest ih =>
    intro acc h
    have hidx : chunkOk (res idx) = true := h idx (List.mem_cons_self idx rest)
    have hstep := sepChunk_ok tmpRoot inStem res idx acc hidx
    simp only [List.cons_append, sepLoop, hstep]
    exact ih _ (fun j hj => h j (List.mem_cons_of_mem idx hj))

theorem chunkOk_congr (o₁ o₂ : ChunkOutcome) (h : eqExceptAccomp o₁ o₂) :
    chunkOk o₁ = chunkOk o₂ := by
  simp [chunkOk, h.1, h.2]

theorem sepChunk_congr (tmpRoot inStem : String) (res₁ res₂ : ℕ → ChunkOutcome)
    (h : ∀ i, eqExceptAccomp (res₁ i) (res₂ i)) (idx : ℕ)
    (acc : List String × List String) :
    sepChunk tmpRoot inStem res₁ idx acc = sepChunk tmpRoot inStem res₂ idx acc := by
  have h1 := (h idx).1
  have h2 := (h idx).2
  simp only [sepChunk, h1, h2]

theorem sepLoop_congr (tmpRoot inStem : String) (res₁ res₂ : ℕ → ChunkOutcome)
    (h : ∀ i, eqExceptAccomp (res₁ i) (res₂ i)) :
    ∀ (l : List ℕ) (acc : List String × List String),
      sepLoop tmpRoot inStem res₁ l acc = sepLoop tmpRoot inStem res₂ l acc := by
  intro l
  induction l with
  | nil => intro _; rfl
  | cons idx rest ih =>
    intro acc
    simp only [sepLoop, sepChunk_congr tmpRoot inStem res₁ res₂ h idx acc]
    cases hc : sepChunk tmpRoot inStem res₂ idx acc with
    | error e => rfl
    | ok a => exact ih a

theorem sepInvoked_congr (res₁ res₂ : ℕ → ChunkOutcome)
    (h : ∀ i, eqExceptAccomp (res₁ i) (res₂ i)) :
    ∀ l : List ℕ, sepInvoked res₁ l = sepInvoked res₂ l := by
  intro l
  induction l with
  | nil => rfl
  | cons idx rest ih =>
    simp [sepInvoked, chunkOk_congr (res₁ idx) (res₂ idx) (h idx), ih]

theorem range_split (n k : ℕ) (hk : k < n) :
    List.range n =
      List.range k ++ k :: (List.range (n - (k + 1))).map ((k + 1) + ·) := by
  have h1 : n = (k + 1) + (n - (k + 1)) := by omega
  calc List.range n
      = List.range ((k + 1) + (n - (k + 1))) := by rw [← h1]
    _ = List.range (k + 1) ++ (List.range (n - (k + 1))).map ((k + 1) + ·) :=
        List.range_add (k + 1) (n - (k + 1))
    _ = (List.range k ++ [k]) ++ (List.range (n - (k + 1))).map ((k + 1) + ·) := by
        rw [List.range_succ]
    _ = List.range k ++ k :: (List.range (n - (k + 1))).map ((k + 1) + ·) := by
        simp

/-! ## Claim C6 -/

/-- Claim C6: on a run where every chunk separates successfully, the two
stem-path lists are the per-chunk paths in ascending chunk-index order, and
both concatenation manifests list them one per line in that same order. -/
theorem c6_concat_order (tmpRoot inStem : String) (res : ℕ → ChunkOutcome) (n : ℕ)
    (hok : ∀ j, j < n → chunkOk (res j) = true) :
    sepRun tmpRoot inStem res n =
      Except.ok ((List.range n).map (vocalFilePath tmpRoot inStem),
        (List.range n).map (accompFilePath tmpRoot inStem)) ∧
    (∀ i, i < n →
      ((List.range n).map (vocalFilePath tmpRoot inStem))[i]? =
          some (vocalFilePath tmpRoot inStem i) ∧
        (manifestLines ((List.range n).map (vocalFilePath tmpRoot inStem)))[i]? =
          some ("file '" ++ vocalFilePath tmpRoot inStem i ++ "'") ∧
        ((List.range n).map (accompFilePath tmpRoot inStem))[i]? =
          some (accompFilePath tmpRoot inStem i) ∧
        (manifestLines ((List.range n).map (accompFilePath tmpRoot inStem)))[i]? =
          some ("file '" ++ accompFilePath tmpRoot inStem i ++ "'")) := by
  constructor
  · rw [sepRun, sepLoop_all_ok tmpRoot inStem res (List.range n) ([], [])
      (fun j hj => hok j (List.mem_range.mp hj))]
    rfl
  · intro i hi
    refine ⟨?_, ?_, ?_, ?_⟩ <;>
      simp [manifestLines, List.getElem?_map, List.getElem?_range, hi]

theorem c6_concat_order_witness :
    (∀ j, j < 2 → chunkOk (constOutcome 0 true true j) = true) ∧
    (sepRun "/tmp" "song" (constOutcome 0 true true) 2 =
      Except.ok ((List.range 2).map (vocalFilePath "/tmp" "song"),
        (List.range 2).map (accompFilePath "/tmp" "song")) ∧
    (∀ i, i < 2 →
      ((List.range 2).map (vocalFilePath "/tmp" "song"))[i]? =
          some (vocalFilePath "/tmp" "song" i) ∧
        (manifestLines ((List.range 2).map (vocalFilePath "/tmp" "song")))[i]? =
          some ("file '" ++ vocalFilePath "/tmp" "song" i ++ "'") ∧
        ((List.range 2).map (accompFilePath "/tmp" "song"))[i]? =
          some (accompFilePath "/tmp" "song" i) ∧
        (manifestLines ((List.range 2).map (accompFilePath "/tmp" "song")))[i]? =
          some ("file '" ++ accompFilePath "/tmp" "song" i ++ "'"))) := by
  have hok : ∀ j, j < 2 → chunkOk (constOutcome 0 true true j) = true := by
    intro j _; rfl
  exact ⟨hok, c6_concat_order "/tmp" "song" (constOutcome 0 true true) 2 hok⟩

/-! ## Claim C7 -/

/-- Claim C7: separation invocations are issued strictly sequentially in
ascending chunk-index order, and when chunk `k` is the first failing chunk
(non-zero exit or missing vocal stem), the invocation trace is exactly
`0..k` — no chunk after `k` is ever invoked — and the run aborts with an
error. -/
theorem c7_sequential_abort (tmpRoot inStem : String) (res : ℕ → ChunkOutcome)
    (n k : ℕ) (hk : k < n) (hok : ∀ j, j < k → chunkOk (res j) = true)
    (hfail : chunkOk (res k) = false) :
    sepInvocations res n = List.range (k + 1) ∧
    List.Sorted (· < ·) (sepInvocations res n) ∧
    (∀ j, k < j → j ∉ sepInvocations res n) ∧
    exceptOk (sepRun tmpRoot inStem res n) = false := by
  have hsplit := range_split n k hk
  have hl1 : ∀ j ∈ List.range k, chunkOk (res j) = true :=
    fun j hj => hok j (List.mem_range.mp hj)
  have htrace : sepInvocations res n = List.range (k + 1) := by
    rw [sepInvocations, hsplit,
      sepInvoked_fail res k ((List.range (n - (k + 1))).map ((k + 1) + ·)) hfail
        (List.range k) hl1, List.range_succ]
  refine ⟨htrace, ?_, ?_, ?_⟩
  · rw [htrace]; exact List.sorted_lt_range (k + 1)
  · intro j hj hmem
    rw [htrace] at hmem
    exact absurd (List.mem_range.mp hmem) (by omega)
  · rw [sepRun, hsplit]
    exact sepLoop_fail tmpRoot inStem res k
      ((List.range (n - (k + 1))).map ((k + 1) + ·)) hfail (List.range k) ([], []) hl1

theorem c7_sequential_abort_witness :
    1 < 3 ∧ (∀ j, j < 1 → chunkOk (idxOutcome j) = true) ∧
    chunkOk (idxOutcome 1) = false ∧
    (sepInvocations idxOutcome 3 = List.range (1 + 1) ∧
      List.Sorted (· < ·) (sepInvocations idxOutcome 3) ∧
      (∀ j, 1 < j → j ∉ sepInvocations idxOutcome 3) ∧
      exceptOk (sepRun "/tmp" "song" idxOutcome 3) = false) := by
  have hok : ∀ j, j < 1 → chunkOk (idxOutcome j) = true := by
    intro j hj
    have hj0 : j = 0 := by omega
    subst hj0; decide
  exact ⟨by decide, hok, by decide,
    c7_sequential_abort "/tmp" "song" idxOutcome 3 1 (by decide) hok (by decide)⟩

/-! ## Claim C8 -/

/-- Claim C8: after a successful separation invocation the vocal stem's
existence is checked — the run aborts fatally when it is absent — while the
accompaniment stem's existence is never consulted: its path is recorded on
trust, and both the run's result and its invocation trace are invariant
under changes to accompaniment-stem existence. -/
theorem c8_vocal_checked_accomp_trusted (tmpRoot inStem : String)
    (resF resT resA resB : ℕ → ChunkOutcome) (idx n : ℕ)
    (acc : List String × List String) (b : Bool)
    (hF : resF idx = ⟨0, false, b⟩)
    (hT : resT idx = ⟨0, true, false⟩)
    (hAB : ∀ i, eqExceptAccomp (resA i) (resB i)) :
    sepChunk tmpRoot inStem resF idx acc =
      Except.error (RunError.fatalExit ("Missing " ++ vocalFilePath tmpRoot inStem idx)) ∧
    sepChunk tmpRoot inStem resT idx acc =
      Except.ok (acc.1 ++ [vocalFilePath tmpRoot inStem idx],
        acc.2 ++ [accompFilePath tmpRoot inStem idx]) ∧
    sepRun tmpRoot inStem resA n = sepRun tmpRoot inStem resB n ∧
    sepInvocations resA n = sepInvocations resB n := by
  refine ⟨?_, ?_, ?_, ?_⟩
  · simp [sepChunk, hF]
  · simp [sepChunk, hT]
  · exact sepLoop_congr tmpRoot inStem resA resB hAB (List.range n) ([], [])
  · exact sepInvoked_congr resA resB hAB (List.range n)

theorem c8_vocal_checked_accomp_trusted_witness :
    constOutcome 0 false true 0 = ⟨0, false, true⟩ ∧
    constOutcome 0 true false 0 = ⟨0, true, false⟩ ∧
    (∀ i, eqExceptAccomp (constOutcome 0 true true i) (constOutcome 0 true false i)) ∧
    (sepChunk "/tmp" "song" (constOutcome 0 false true) 0 ([], []) =
      Except.error (RunError.fatalExit ("Missing " ++ vocalFilePath "/tmp" "song" 0)) ∧
    sepChunk "/tmp" "song" (constOutcome 0 true false) 0 ([], []) =
      Except.ok (([] : List String) ++ [vocalFilePath "/tmp" "song" 0],
        ([] : List String) ++ [accompFilePath "/tmp" "song" 0]) ∧
    sepRun "/tmp" "song" (constOutcome 0 true true) 2 =
      sepRun "/tmp" "song" (constOutcome 0 true false) 2 ∧
    sepInvocations (constOutcome 0 true true) 2 =
      sepInvocations (constOutcome 0 true false) 2) := by
  have hAB : ∀ i, eqExceptAccomp (constOutcome 0 true true i) (constOutcome 0 true false i) :=
    fun _ => ⟨rfl, rfl⟩
  exact ⟨rfl, rfl, hAB,
    c8_vocal_checked_accomp_trusted "/tmp" "song" (constOutcome 0 false true)
      (constOutcome 0 true false) (constOutcome 0 true true) (constOutcome 0 true false)
      0 2 ([], []) true rfl rfl hAB⟩

end ChunkedSpleeter
